import Mathlib

/-!
# Verification of the Project Discovery Engine

A shallow embedding of the discovery core of the ProjectManager repository:
`src/scanner.py` (tree walker, orchestrator) and `src/utils/detector.py`
(language/framework classifier), together with proofs about the embedded
functions.

Modelling conventions:
* A directory's contents are a `List FSEntry`; an `FSEntry` is a file (with
  `content : Option String`, where `none` stands for a file whose
  `read_text` fails with `PermissionError` or `UnicodeDecodeError`) or a
  subdirectory.  Listing a directory is modelled as always succeeding: the
  `except PermissionError: pass` branches around `iterdir()` are the
  "no children" case, which the model represents by an empty child list.
* Python `pathlib.Path` values compare by their syntactically normalised
  form (multiple and trailing slashes removed, `.` segments dropped), not
  by their resolved target.  `PyPath` models this normal form: an
  absolute/relative flag plus the list of components.  Equality of
  `PyPath` is exactly Python's `Path.__eq__` on POSIX.
* Modification timestamps (`_get_last_modified` and the `last_modified`
  field of `Project`) are omitted: no claim concerns them, and
  `_get_last_modified` swallows all of its own exceptions, so the omission
  does not change any control flow that is modelled.
* Reading a directory entry during a content check is treated as a caught
  read failure ("no match"), matching the
  `except (PermissionError, UnicodeDecodeError)` branch of
  `_file_contains_keywords`.
-/

/-- A Python `pathlib.Path` in normalised form: the `absolute` flag (leading
slash) and the path components.  Two `Path` spellings of the same directory
(relative vs absolute, through a symlink) are distinct `PyPath` values;
spellings differing only in trailing or repeated slashes normalise to the
same `PyPath` before it is constructed. -/
structure PyPath where
  absolute : Bool
  parts : List String
deriving DecidableEq, Repr

/-- `p / name` for a single component, as used for `root_path / item.name`. -/
def PyPath.push (p : PyPath) (n : String) : PyPath :=
  ⟨p.absolute, p.parts ++ [n]⟩

/-- Extending a path by several components (used for stating lemmas about
nested scans). -/
def PyPath.extend (p : PyPath) (ns : List String) : PyPath :=
  ⟨p.absolute, p.parts ++ ns⟩

/-- One entry of a directory listing: a file with its readable text
(`content = none` models a file whose read raises `PermissionError` or
`UnicodeDecodeError`), or a subdirectory with its own listing. -/
inductive FSEntry where
  | file (name : String) (content : Option String)
  | dir (name : String) (children : List FSEntry)
deriving Repr

/-- The name of a directory entry (`item.name`). -/
def FSEntry.name : FSEntry → String
  | .file n _ => n
  | .dir n _ => n

/-- `(path / target).exists()`: some entry (file or directory) of the
listing has that name. -/
def entryExists (children : List FSEntry) (target : String) : Bool :=
  children.any fun e => e.name == target

/-- `children.find?` by name: the entry `path / target` refers to, if any. -/
def lookupEntry (children : List FSEntry) (target : String) : Option FSEntry :=
  children.find? fun e => e.name == target

/-- Python's `str.rfind('.')` on the character list: index of the last dot. -/
def rfindDot : List Char → Option Nat
  | [] => none
  | c :: rest =>
    match rfindDot rest with
    | some i => some (i + 1)
    | none => if c = '.' then some 0 else none

/-- `PurePath.suffix`: the extension of a name, dot included; empty when the
last dot is at position 0 (dotfile) or at the very end. -/
def pySuffix (name : String) : String :=
  match rfindDot name.toList with
  | some i =>
    if 0 < i ∧ i + 1 < name.toList.length then String.mk (name.toList.drop i) else ""
  | none => ""

/-- Python's `needle in hay` on strings: substring containment. -/
def pyIn (needle hay : String) : Bool :=
  decide (needle.toList <:+: hay.toList)

/-- `str.startswith`, on the character list (so that proofs can evaluate
it; identical to byte-level comparison). -/
def pyStartsWith (s pre : String) : Bool :=
  decide (pre.toList <+: s.toList)

/-- `str.endswith`, on the character list. -/
def pyEndsWith (s suf : String) : Bool :=
  decide (suf.toList <:+ s.toList)

/-- `str.lower`, on the character list (the names involved are ASCII, where
`Char.toLower` and Python's `str.lower` agree). -/
def pyLower (s : String) : String :=
  String.mk (s.toList.map Char.toLower)

/-! ## scanner.py: module-level tables -/

/-- Markers that indicate a directory is a project root (`PROJECT_MARKERS`). -/
def PROJECT_MARKERS : List String := [
  ".git",
  "package.json",
  "Cargo.toml",
  "pyproject.toml",
  "setup.py",
  "requirements.txt",
  "go.mod",
  "pom.xml",
  "build.gradle",
  "build.gradle.kts",
  "Makefile",
  "CMakeLists.txt",
  "Gemfile",
  "composer.json",
  "pubspec.yaml",
  "mix.exs",
  "stack.yaml",
  "Package.swift"
]

/-- File patterns that indicate a project (`PROJECT_FILE_PATTERNS`).  Both
patterns are a `*` followed by a literal suffix. -/
def PROJECT_FILE_PATTERNS : List String := ["*.sln", "*.csproj"]

/-- `fnmatch`-style matching for the patterns of `PROJECT_FILE_PATTERNS`:
each is `*` followed by a literal suffix, and `*` matches any (possibly
empty) prefix of the name, so the pattern holds iff the name ends with the
suffix. -/
def globStarMatch (pattern : String) (name : String) : Bool :=
  pyEndsWith name (String.mk (pattern.toList.drop 1))

/-- Directories to skip when scanning (`SKIP_DIRECTORIES`); matched against
the lowercased name. -/
def SKIP_DIRECTORIES : List String := [
  "node_modules",
  "venv",
  ".venv",
  "env",
  ".env",
  "__pycache__",
  ".git",
  ".svn",
  ".hg",
  "target",
  "build",
  "dist",
  "out",
  "bin",
  "obj",
  ".idea",
  ".vscode",
  ".vs",
  "vendor",
  "packages",
  ".cache",
  ".tox",
  ".mypy_cache",
  ".pytest_cache",
  "coverage",
  ".coverage",
  "htmlcov",
  "sdk",
  "lib",
  "libs",
  "third_party",
  "external",
  "deps",
  "dependencies"
]

/-! ## detector.py: tables -/

/-- One row of `LANGUAGE_MARKERS`: marker filenames, extensions, and the
integer priority (lower = higher precedence). -/
structure LangEntry where
  name : String
  files : List String
  extensions : List String
  priority : Nat
deriving DecidableEq, Repr

/-- `LANGUAGE_MARKERS`, in the source's (dict insertion) declaration
order. -/
def LANGUAGE_MARKERS : List LangEntry := [
  ⟨"Python", ["pyproject.toml", "setup.py", "requirements.txt", "Pipfile", "setup.cfg"], [".py"], 1⟩,
  ⟨"JavaScript", ["package.json"], [".js", ".jsx"], 2⟩,
  ⟨"TypeScript", ["tsconfig.json"], [".ts", ".tsx"], 2⟩,
  ⟨"Rust", ["Cargo.toml"], [".rs"], 1⟩,
  ⟨"Go", ["go.mod", "go.sum"], [".go"], 1⟩,
  ⟨"Java", ["pom.xml", "build.gradle", "build.gradle.kts"], [".java"], 2⟩,
  ⟨"Kotlin", ["build.gradle.kts"], [".kt", ".kts"], 2⟩,
  ⟨"C#", [], [".cs", ".csproj", ".sln"], 2⟩,
  ⟨"C++", ["CMakeLists.txt"], [".cpp", ".cxx", ".cc", ".hpp", ".hxx"], 3⟩,
  ⟨"C", ["Makefile", "CMakeLists.txt"], [".c", ".h"], 4⟩,
  ⟨"Ruby", ["Gemfile", "Rakefile"], [".rb"], 2⟩,
  ⟨"PHP", ["composer.json"], [".php"], 2⟩,
  ⟨"Swift", ["Package.swift"], [".swift"], 1⟩,
  ⟨"Dart", ["pubspec.yaml"], [".dart"], 1⟩,
  ⟨"Elixir", ["mix.exs"], [".ex", ".exs"], 1⟩,
  ⟨"Haskell", ["stack.yaml", "cabal.project"], [".hs"], 1⟩,
  ⟨"Scala", ["build.sbt"], [".scala"], 1⟩,
  ⟨"Lua", [], [".lua"], 3⟩,
  ⟨"Shell", [], [".sh", ".bash", ".zsh"], 5⟩
]

/-- One row of `FRAMEWORK_MARKERS`: marker files, an optional content check
`(file-to-read, keywords)`, and — only on the `.NET` row — an `extensions`
key that `detect_frameworks` never reads. -/
structure FrameworkEntry where
  name : String
  files : List String
  content_check : Option (String × List String)
  extensions : List String := []
deriving DecidableEq, Repr

/-- `FRAMEWORK_MARKERS`, in declaration order. -/
def FRAMEWORK_MARKERS : List FrameworkEntry := [
  ⟨"React", ["package.json"], some ("package.json", ["react", "react-dom"]), []⟩,
  ⟨"Vue", ["package.json"], some ("package.json", ["vue"]), []⟩,
  ⟨"Angular", ["angular.json"], none, []⟩,
  ⟨"Next.js", ["next.config.js", "next.config.mjs", "next.config.ts"], none, []⟩,
  ⟨"Django", ["manage.py"], some ("manage.py", ["django"]), []⟩,
  ⟨"Flask", [], some ("requirements.txt", ["flask"]), []⟩,
  ⟨"FastAPI", [], some ("requirements.txt", ["fastapi"]), []⟩,
  ⟨"Rails", ["Gemfile"], some ("Gemfile", ["rails"]), []⟩,
  ⟨"Laravel", ["artisan"], none, []⟩,
  ⟨"Spring", [], some ("pom.xml", ["spring"]), []⟩,
  ⟨".NET", [], none, [".csproj", ".sln"]⟩,
  ⟨"Flutter", ["pubspec.yaml"], some ("pubspec.yaml", ["flutter"]), []⟩,
  ⟨"Electron", ["package.json"], some ("package.json", ["electron"]), []⟩,
  ⟨"Tauri", ["tauri.conf.json", "src-tauri"], none, []⟩
]

/-! ## detector.py: functions -/

/-- `_file_contains_keywords`: `False` when the file does not exist; the
lowercased text must contain some lowercased keyword; a read failure
(`PermissionError`, `UnicodeDecodeError`) is caught and yields `False`.
A directory entry under the checked name is likewise treated as a caught
read failure (on Windows reading a directory raises `PermissionError`;
the POSIX `IsADirectoryError` is outside this model). -/
def _file_contains_keywords (children : List FSEntry) (fname : String)
    (keywords : List String) : Bool :=
  match lookupEntry children fname with
  | none => false
  | some (.dir _ _) => false
  | some (.file _ none) => false
  | some (.file _ (some text)) =>
    keywords.any fun kw => pyIn (pyLower kw) (pyLower text)

/-- The fixed skip tuple of `_has_files_with_extensions` (case-sensitive,
unlike the scanner's skip list). -/
def EXT_SEARCH_SKIP : List String :=
  ["node_modules", "venv", "__pycache__", "target", "build", "dist"]

/-- The body of `_has_files_with_extensions.search`, in fuel form: at a call
with Python depth `k` the fuel is `max_depth + 1 - k`, so the entry guard
`depth > max_depth` is `fuel = 0`, and the recursion guard
`depth < max_depth` is `0 < f` for `fuel = f + 1`. -/
def searchExtFuel (extensions : List String) : Nat → List FSEntry → Bool
  | 0, _ => false
  | f + 1, children => children.any fun item =>
    if pyStartsWith item.name "." || EXT_SEARCH_SKIP.contains item.name then false
    else
      match item with
      | .file n _ => extensions.contains (pyLower (pySuffix n))
      | .dir _ sub => decide (0 < f) && searchExtFuel extensions f sub

/-- `_has_files_with_extensions(path, extensions, max_depth=2)`: the
depth-bounded extension search, entered at Python depth 0. -/
def _has_files_with_extensions (children : List FSEntry) (extensions : List String)
    (max_depth : Nat := 2) : Bool :=
  searchExtFuel extensions (max_depth + 1) children

/-- The per-language condition of the `detect_languages` loop: a marker file
directly under the directory, or — only when no marker matched — a nonempty
extension list whose search succeeds.  (The `language not in detected or
priority < detected[language]` guard in the source is vacuous: each language
is visited exactly once.) -/
def langDetected (children : List FSEntry) (L : LangEntry) : Bool :=
  L.files.any (entryExists children) ||
    (!L.extensions.isEmpty && _has_files_with_extensions children L.extensions)

/-- The `detected` dict of `detect_languages` as an association list in
insertion (= declaration) order: `(language, priority)` for each detected
language. -/
def detectedPairs (children : List FSEntry) : List (String × Nat) :=
  LANGUAGE_MARKERS.filterMap fun L =>
    if langDetected children L then some (L.name, L.priority) else none

/-- The sort key of `sorted(detected.items(), key=lambda x: x[1])`. -/
def priorityLE (a b : String × Nat) : Prop := a.2 ≤ b.2

instance : DecidableRel priorityLE := fun a b => Nat.decLe a.2 b.2

/-- `detect_languages`: CPython's `sorted` is a stable sort, and a stable
sort by a fixed key is extensionally unique, so it is embedded as the
(stable) insertion sort by priority over the insertion-ordered pairs. -/
def detect_languages (children : List FSEntry) : List String :=
  (List.insertionSort priorityLE (detectedPairs children)).map Prod.fst

/-- The `for marker_file in markers.get('files', [])` loop of
`detect_frameworks`, with its `break` structure: a marker that exists
confirms immediately when there is no content check; with a content check
the framework is confirmed only if the designated file matches, and
otherwise the loop moves on to the next marker. -/
def markerLoop (children : List FSEntry) (cc : Option (String × List String)) :
    List String → Bool
  | [] => false
  | m :: ms =>
    if entryExists children m then
      match cc with
      | some (f, kws) =>
        if _file_contains_keywords children f kws then true
        else markerLoop children cc ms
      | none => true
    else markerLoop children cc ms

/-- The content-only branch of `detect_frameworks`: a declared content check
whose target file exists and matches. -/
def contentOnlyFired (children : List FSEntry)
    (cc : Option (String × List String)) : Bool :=
  match cc with
  | some (f, kws) => entryExists children f && _file_contains_keywords children f kws
  | none => false

/-- The body of the `for framework, markers in FRAMEWORK_MARKERS.items()`
loop, threading the `detected` list. -/
def detectFrameworksAux (children : List FSEntry) :
    List FrameworkEntry → List String → List String
  | [], detected => detected
  | F :: rest, detected =>
    let d1 := if markerLoop children F.content_check F.files
      then detected ++ [F.name] else detected
    let d2 := if F.name ∉ d1 ∧ contentOnlyFired children F.content_check
      then d1 ++ [F.name] else d1
    detectFrameworksAux children rest d2

/-- `detect_frameworks`. -/
def detect_frameworks (children : List FSEntry) : List String :=
  detectFrameworksAux children FRAMEWORK_MARKERS []

/-! ## scanner.py: the scanner -/

/-- The project record as the scanner populates it (`name`, `path`,
`languages`; the persistence-only fields and the timestamp are outside this
model). -/
structure Project where
  name : String
  path : PyPath
  languages : List String
deriving DecidableEq, Repr

/-- `ProjectScanner.__init__`: the only instance state is `max_depth`. -/
structure ProjectScanner where
  max_depth : Nat
deriving DecidableEq, Repr

/-- `ProjectScanner._should_skip`, on the entry's name. -/
def _should_skip (name : String) : Bool :=
  pyStartsWith name "." || SKIP_DIRECTORIES.contains (pyLower name)

/-- `ProjectScanner._is_project`: some `PROJECT_MARKERS` entry exists
directly under the directory, or some entry matches a
`PROJECT_FILE_PATTERNS` glob. -/
def _is_project (children : List FSEntry) : Bool :=
  PROJECT_MARKERS.any (entryExists children) ||
    PROJECT_FILE_PATTERNS.any fun pat =>
      children.any fun e => globStarMatch pat e.name

/-- `ProjectScanner._create_project`: directory base name, detected
languages, then frameworks appended when not already present (case-sensitive
exact match).  In this model record construction always succeeds: the
`except Exception: return None` branch is unreachable because every step is
total (timestamp collection, which swallows its own errors, is omitted). -/
def _create_project (path : PyPath) (children : List FSEntry) : Project :=
  let languages := detect_languages children
  let frameworks := detect_frameworks children
  let languages := frameworks.foldl
    (fun ls fw => if fw ∈ ls then ls else ls ++ [fw]) languages
  { name := path.parts.getLastD "", path := path, languages := languages }

/-- `ProjectScanner.scan_directory` (shallow mode): `none` stands for a
`root_path` that does not exist or is not a directory; otherwise every
direct child directory that is not skip-listed yields a record, with no
project-root check. -/
def ProjectScanner.scan_directory (_self : ProjectScanner) (root_path : PyPath)
    (root : Option (List FSEntry)) : List Project :=
  match root with
  | none => []
  | some children =>
    children.filterMap fun item =>
      match item with
      | .dir n sub =>
        if _should_skip n then none else some (_create_project (root_path.push n) sub)
      | .file _ _ => none

/-- The body of `ProjectScanner._scan_recursive`, in fuel form: at a call
with `depth = d` the fuel is `max_depth + 1 - d`, so the entry guard
`depth > max_depth` is `fuel = 0`, and the recursive call at `depth + 1`
runs at `fuel - 1`. -/
def scanRecursiveFuel (sp : PyPath) (children : List FSEntry) :
    Nat → List Project
  | 0 => []
  | f + 1 =>
    if _is_project children then [_create_project sp children]
    else
      children.foldr
        (fun item acc =>
          (match item with
            | .dir n sub =>
              if _should_skip n then [] else scanRecursiveFuel (sp.push n) sub f
            | .file _ _ => []) ++ acc)
        []

/-- `ProjectScanner._scan_recursive(path, depth)` (recursive mode). -/
def ProjectScanner._scan_recursive (self : ProjectScanner) (sp : PyPath)
    (children : List FSEntry) (depth : Nat) : List Project :=
  scanRecursiveFuel sp children (self.max_depth + 1 - depth)

/-- Modelled from the spec: `_scan_recursive` has no caller anywhere in the
repository (recursive mode is dead code), so the initial `depth` of a
recursive-mode run is not fixed by the source.  Per the specification's
depth-bound property — a marker file at depth `maxDepth` from the root is
discovered, one at `maxDepth + 1` is not — the entry point must process the
scan root at depth 1, which is how this model enters recursive mode. -/
def scanRecursiveFromRoot (max_depth : Nat) (sp : PyPath)
    (children : List FSEntry) : List Project :=
  (ProjectScanner.mk max_depth)._scan_recursive sp children 1

/-- A configured scan root as the orchestrator sees it: the `Path` value it
was configured with (`spelling`), the canonical path `Path.resolve()` would
return (model metadata: the source never computes it), and the directory's
contents (`none` when the path does not exist or is not a directory). -/
structure ScanRoot where
  spelling : PyPath
  canonical : PyPath
  tree : Option (List FSEntry)
deriving Repr

/-- The inner `for project in scanner.scan_directory(directory)` loop of
`scan_directories`: thread the `seen_paths` set (as a list with membership
by `Path` equality) and append records whose `path` is unseen. -/
def addProjects : List Project → List PyPath → List Project →
    List PyPath × List Project
  | [], seen, acc => (seen, acc)
  | p :: ps, seen, acc =>
    if p.path ∈ seen then addProjects ps seen acc
    else addProjects ps (p.path :: seen) (acc ++ [p])

/-- The outer `for directory in directories` loop of `scan_directories`. -/
def scanDirectoriesGo (scanner : ProjectScanner) :
    List ScanRoot → List PyPath → List Project → List Project
  | [], _, acc => acc
  | r :: rest, seen, acc =>
    let sa := addProjects (scanner.scan_directory r.spelling r.tree) seen acc
    scanDirectoriesGo scanner rest sa.1 sa.2

/-- `scan_directories(directories, max_depth=5)`: the discovery
orchestrator. -/
def scan_directories (roots : List ScanRoot) (max_depth : Nat := 5) :
    List Project :=
  scanDirectoriesGo (ProjectScanner.mk max_depth) roots [] []

/-! ## Spec-side definitions and concrete fixtures -/

/-- Spec-side (the amended dedup rule of the orchestrator): keep the first
record encountered for each literal `path` value, dropping later ones. -/
def dedupFirstAux : List Project → List PyPath → List Project
  | [], _ => []
  | p :: ps, seen =>
    if p.path ∈ seen then dedupFirstAux ps seen
    else p :: dedupFirstAux ps (p.path :: seen)

/-- Spec-side: first-wins deduplication of a record list by literal path. -/
def dedupFirstByPath (ps : List Project) : List Project :=
  dedupFirstAux ps []

/-- The `seen_paths` set after processing a record list. -/
def dedupSeen : List Project → List PyPath → List PyPath
  | [], seen => seen
  | p :: ps, seen =>
    if p.path ∈ seen then dedupSeen ps seen
    else dedupSeen ps (p.path :: seen)

/-- `~/projects` configured by its relative spelling; the directory holds one
child project `app`. -/
def overlappingRootRel : ScanRoot :=
  ⟨⟨false, ["projects"]⟩, ⟨true, ["home", "user", "projects"]⟩,
    some [FSEntry.dir "app" []]⟩

/-- The same directory configured by its absolute spelling. -/
def overlappingRootAbs : ScanRoot :=
  ⟨⟨true, ["home", "user", "projects"]⟩, ⟨true, ["home", "user", "projects"]⟩,
    some [FSEntry.dir "app" []]⟩

/-- A scan root with a project child, a loose file and a skip-listed child. -/
def demoChildren : List FSEntry :=
  [FSEntry.dir "app" [], FSEntry.file "notes.txt" (some ""),
    FSEntry.dir "node_modules" []]

/-- A configured scan root over `demoChildren`. -/
def demoScanRoot : ScanRoot :=
  ⟨⟨true, ["ws"]⟩, ⟨true, ["ws"]⟩, some demoChildren⟩

/-- A directory with both a Python and a JavaScript manifest. -/
def pyJsChildren : List FSEntry :=
  [FSEntry.file "pyproject.toml" (some ""), FSEntry.file "package.json" (some "")]

/-- A directory with no manifest and a single `.rs` file at depth 1. -/
def rustLooseFile : List FSEntry := [FSEntry.file "main.rs" (some "")]

/-- The same `.rs` file, but only under the skip-listed `target/`. -/
def rustUnderTarget : List FSEntry :=
  [FSEntry.dir "target" [FSEntry.file "main.rs" (some "")]]

/-- The Rust row of the language table. -/
def rustRow : LangEntry := ⟨"Rust", ["Cargo.toml"], [".rs"], 1⟩

/-- A project root (it has `.git`) containing a nested directory that has a
marker file of its own. -/
def nestedMarkers : List FSEntry :=
  [FSEntry.dir ".git" [], FSEntry.dir "inner" [FSEntry.file "Cargo.toml" (some "")]]

/-- The manifest files that framework content checks read, all unreadable. -/
def unreadableManifests : List FSEntry :=
  [FSEntry.file "requirements.txt" none, FSEntry.file "package.json" none,
    FSEntry.file "manage.py" none, FSEntry.file "Gemfile" none,
    FSEntry.file "pom.xml" none, FSEntry.file "pubspec.yaml" none]

/-- A chain of nested directories with a single marker file at the bottom:
`projectChain [n₁, …, nⱼ]` is a directory whose only entry is `n₁`, …, with
`Cargo.toml` inside `nⱼ` — the marker file sits at depth `j + 1` below the
root of the chain. -/
def projectChain : List String → List FSEntry
  | [] => [FSEntry.file "Cargo.toml" (some "")]
  | n :: rest => [FSEntry.dir n (projectChain rest)]

/-- A directory name that neither gets skipped nor makes its parent look
like a project root (it is no marker name and matches no glob pattern). -/
def chainSafe (n : String) : Prop :=
  _should_skip n = false ∧ n ∉ PROJECT_MARKERS ∧
    pyEndsWith n ".sln" = false ∧ pyEndsWith n ".csproj" = false

instance (n : String) : Decidable (chainSafe n) := by
  unfold chainSafe; infer_instance

/-- The table position of a language name (declaration order). -/
def LANGUAGE_NAMES : List String := LANGUAGE_MARKERS.map LangEntry.name

/-- Index of a language in the declaration order of `LANGUAGE_MARKERS`. -/
def langIdx (n : String) : Nat := List.indexOf n LANGUAGE_NAMES

/-- The table priority of a language name. -/
def langPriority (n : String) : Nat :=
  match LANGUAGE_MARKERS.find? (fun L => L.name == n) with
  | some L => L.priority
  | none => 0

/-- A framework row fires when either its marker loop or its content-only
branch confirms it. -/
def frameworkFired (children : List FSEntry) (F : FrameworkEntry) : Bool :=
  markerLoop children F.content_check F.files ||
    contentOnlyFired children F.content_check

/-- The `scan_directory` method as a call on the scanner object: the result
together with the receiver after the call.  `scan_directory` assigns to no
attribute of `self`, so the receiver comes back unchanged. -/
def ProjectScanner.scan_directory_call (self : ProjectScanner) (root_path : PyPath)
    (root : Option (List FSEntry)) : List Project × ProjectScanner :=
  (self.scan_directory root_path root, self)

/-! ## General list lemmas -/

/-- A `filterMap` that keeps or drops `g a` by a test is a sublist of the
full `map g`. -/
lemma filterMap_ite_sublist {α β : Type} (l : List α) (c : α → Bool) (g : α → β) :
    (l.filterMap fun a => if c a then some (g a) else none).Sublist (l.map g) := by
  induction l with
  | nil => simp
  | cons a t ih =>
    rw [List.filterMap_cons, List.map_cons]
    by_cases h : c a = true
    · rw [if_pos h]; exact ih.cons₂ _
    · rw [if_neg h]; exact ih.cons _

/-- Membership in a keep-or-drop `filterMap`. -/
lemma mem_filterMap_ite {α β : Type} {l : List α} {c : α → Bool} {g : α → β} {x : β} :
    (x ∈ l.filterMap fun a => if c a then some (g a) else none) ↔
      ∃ a, a ∈ l ∧ c a = true ∧ g a = x := by
  simp only [List.mem_filterMap]
  constructor
  · rintro ⟨a, ha, hfa⟩
    by_cases h : c a = true
    · rw [if_pos h] at hfa
      exact ⟨a, ha, h, Option.some.inj hfa⟩
    · rw [if_neg h] at hfa
      cases hfa
  · rintro ⟨a, ha, hc, hg⟩
    exact ⟨a, ha, by rw [if_pos hc, hg]⟩

/-- Membership in a `foldr` that concatenates a list per element. -/
lemma mem_foldr_append {α β : Type} (g : α → List β) (l : List α) (p : β) :
    (p ∈ l.foldr (fun item acc => g item ++ acc) []) ↔ ∃ item ∈ l, p ∈ g item := by
  induction l with
  | nil => simp
  | cons a t ih => simp [List.foldr_cons, ih]

/-- In a duplicate-free list, earlier elements have smaller `indexOf`. -/
lemma nodup_pairwise_indexOf {l : List String} (h : l.Nodup) :
    l.Pairwise fun a b => List.indexOf a l < List.indexOf b l := by
  rw [List.pairwise_iff_get]
  intro i j hij
  have hi : List.indexOf (l.get i) l = i.1 := by
    rw [List.get_eq_getElem]; exact List.indexOf_getElem h i.1 i.2
  have hj : List.indexOf (l.get j) l = j.1 := by
    rw [List.get_eq_getElem]; exact List.indexOf_getElem h j.1 j.2
  rw [hi, hj]; exact hij

/-! ## Stability of the priority sort -/

/-- The combined order the claim describes: strictly smaller priority, or
equal priority and earlier declaration. -/
def lexLT (x y : String × Nat) : Prop :=
  x.2 < y.2 ∨ (x.2 = y.2 ∧ langIdx x.1 < langIdx y.1)

lemma lexLT_le {x y : String × Nat} (h : lexLT x y) : x.2 ≤ y.2 := by
  rcases h with h | ⟨h, _⟩
  · exact Nat.le_of_lt h
  · exact Nat.le_of_eq h

/-- Inserting an element that is declared before everything in an already
`lexLT`-ordered list keeps the list `lexLT`-ordered. -/
lemma pairwise_lexLT_orderedInsert (x : String × Nat) (l : List (String × Nat))
    (hl : l.Pairwise lexLT) (hx : ∀ y ∈ l, langIdx x.1 < langIdx y.1) :
    (List.orderedInsert priorityLE x l).Pairwise lexLT := by
  induction l with
  | nil => simp [List.orderedInsert]
  | cons y ys ih =>
    rw [List.orderedInsert]
    by_cases h : priorityLE x y
    · rw [if_pos h]
      refine List.pairwise_cons.mpr ⟨?_, hl⟩
      intro z hz
      rcases List.mem_cons.mp hz with rfl | hz'
      · rcases Nat.lt_or_ge x.2 z.2 with hlt | hge
        · exact Or.inl hlt
        · exact Or.inr ⟨Nat.le_antisymm h hge, hx z (List.mem_cons_self _ _)⟩
      · have hyz : priorityLE y z := lexLT_le (List.rel_of_pairwise_cons hl hz')
        have hxz : x.2 ≤ z.2 := Nat.le_trans h hyz
        rcases Nat.lt_or_ge x.2 z.2 with hlt | hge
        · exact Or.inl hlt
        · exact Or.inr ⟨Nat.le_antisymm hxz hge, hx z (List.mem_cons_of_mem _ hz')⟩
    · rw [if_neg h]
      have hyx : y.2 < x.2 := Nat.lt_of_not_le h
      refine List.pairwise_cons.mpr ⟨?_, ?_⟩
      · intro z hz
        rcases (List.mem_orderedInsert _).mp hz with rfl | hz'
        · exact Or.inl hyx
        · exact List.rel_of_pairwise_cons hl hz'
      · exact ih (List.Pairwise.of_cons hl)
          (fun y' hy' => hx y' (List.mem_cons_of_mem _ hy'))

/-- Insertion sort by priority of a list given in declaration order is
ordered by `lexLT`: ascending priority, ties by declaration order. -/
lemma pairwise_lexLT_insertionSort (l : List (String × Nat))
    (h : l.Pairwise fun x y => langIdx x.1 < langIdx y.1) :
    (List.insertionSort priorityLE l).Pairwise lexLT := by
  induction l with
  | nil => simp [List.insertionSort]
  | cons x xs ih =>
    rw [List.insertionSort]
    rcases List.pairwise_cons.mp h with ⟨hx, hxs⟩
    refine pairwise_lexLT_orderedInsert x _ (ih hxs) ?_
    intro y hy
    exact hx y ((List.mem_insertionSort _).mp hy)

/-! ## The language table and `detect_languages` -/

lemma language_names_nodup : LANGUAGE_NAMES.Nodup := by decide

lemma language_find_name : ∀ L ∈ LANGUAGE_MARKERS,
    LANGUAGE_MARKERS.find? (fun e => e.name == L.name) = some L := by decide

lemma language_name_inj : ∀ L ∈ LANGUAGE_MARKERS, ∀ M ∈ LANGUAGE_MARKERS,
    L.name = M.name → L = M := by decide

/-- The pairs the `detected` dict holds, in declaration order, are strictly
ascending in table position. -/
lemma detectedPairs_pairwise_idx (children : List FSEntry) :
    (detectedPairs children).Pairwise fun x y => langIdx x.1 < langIdx y.1 := by
  have h2 : List.Pairwise (fun a b => langIdx a < langIdx b)
      (LANGUAGE_MARKERS.map LangEntry.name) :=
    nodup_pairwise_indexOf language_names_nodup
  have htbl : LANGUAGE_MARKERS.Pairwise
      (fun L M => langIdx L.name < langIdx M.name) :=
    (@List.pairwise_map _ _ LangEntry.name
      (fun a b => langIdx a < langIdx b) LANGUAGE_MARKERS).mp h2
  have hmap : (LANGUAGE_MARKERS.map fun L => (L.name, L.priority)).Pairwise
      (fun x y : String × Nat => langIdx x.1 < langIdx y.1) :=
    (@List.pairwise_map _ _ (fun L => (L.name, L.priority))
      (fun x y : String × Nat => langIdx x.1 < langIdx y.1) LANGUAGE_MARKERS).mpr htbl
  exact List.Pairwise.sublist (filterMap_ite_sublist LANGUAGE_MARKERS _ _) hmap

lemma mem_detectedPairs {children : List FSEntry} {x : String × Nat} :
    x ∈ detectedPairs children ↔
      ∃ L, L ∈ LANGUAGE_MARKERS ∧ langDetected children L = true ∧
        (L.name, L.priority) = x := by
  rw [detectedPairs, mem_filterMap_ite]

lemma snd_eq_langPriority {children : List FSEntry} {x : String × Nat}
    (hx : x ∈ detectedPairs children) : x.2 = langPriority x.1 := by
  rcases mem_detectedPairs.mp hx with ⟨L, hL, _, hpair⟩
  rw [← hpair]
  rw [langPriority, language_find_name L hL]

lemma mem_detect_languages {children : List FSEntry} {L : LangEntry}
    (hL : L ∈ LANGUAGE_MARKERS) :
    L.name ∈ detect_languages children ↔ langDetected children L = true := by
  rw [detect_languages]
  constructor
  · intro h
    rcases List.mem_map.mp h with ⟨x, hx, hname⟩
    rcases mem_detectedPairs.mp ((List.mem_insertionSort _).mp hx) with
      ⟨M, hM, hdet, hpair⟩
    have hMN : M.name = L.name := by rw [← hname, ← hpair]
    have : M = L := language_name_inj M hM L hL hMN
    rw [← this]; exact hdet
  · intro h
    refine List.mem_map.mpr ⟨(L.name, L.priority), ?_, rfl⟩
    exact (List.mem_insertionSort _).mpr
      (mem_detectedPairs.mpr ⟨L, hL, h, rfl⟩)

lemma detect_languages_nodup (children : List FSEntry) :
    (detect_languages children).Nodup := by
  rw [detect_languages]
  have hperm : ((List.insertionSort priorityLE (detectedPairs children)).map
      Prod.fst).Perm ((detectedPairs children).map Prod.fst) :=
    (List.perm_insertionSort _ _).map _
  rw [hperm.nodup_iff]
  rw [detectedPairs, List.map_filterMap]
  have hfg : ∀ L ∈ LANGUAGE_MARKERS,
      Option.map Prod.fst
          (if langDetected children L then some (L.name, L.priority) else none) =
        if langDetected children L then some L.name else none := by
    intro L _
    by_cases h : langDetected children L = true
    · rw [if_pos h, if_pos h]; rfl
    · rw [if_neg h, if_neg h]; rfl
  rw [List.filterMap_congr hfg]
  exact List.Sublist.nodup (filterMap_ite_sublist _ _ _) language_names_nodup

/-! ## `detect_frameworks`: membership and duplicate-freedom -/

lemma mem_detectFrameworksAux {children : List FSEntry} {x : String} :
    ∀ {l : List FrameworkEntry} {acc : List String},
      x ∈ detectFrameworksAux children l acc →
      x ∈ acc ∨ ∃ F ∈ l, F.name = x ∧ frameworkFired children F = true := by
  intro l
  induction l with
  | nil => intro acc h; exact Or.inl h
  | cons F rest ih =>
    intro acc h
    simp only [detectFrameworksAux] at h
    rcases ih h with hacc | ⟨G, hG, hGx, hGf⟩
    · by_cases h1 : markerLoop children F.content_check F.files = true
      · rw [if_pos h1] at hacc
        have hguard : ¬(F.name ∉ acc ++ [F.name] ∧
            contentOnlyFired children F.content_check = true) := by
          intro hg
          exact hg.1 (List.mem_append_right _ (List.mem_singleton_self _))
        rw [if_neg hguard] at hacc
        rcases List.mem_append.mp hacc with hx | hx
        · exact Or.inl hx
        · rw [List.mem_singleton] at hx
          refine Or.inr ⟨F, List.mem_cons_self _ _, hx.symm, ?_⟩
          rw [frameworkFired, h1, Bool.true_or]
      · rw [if_neg h1] at hacc
        by_cases h2 : F.name ∉ acc ∧ contentOnlyFired children F.content_check = true
        · rw [if_pos h2] at hacc
          rcases List.mem_append.mp hacc with hx | hx
          · exact Or.inl hx
          · rw [List.mem_singleton] at hx
            refine Or.inr ⟨F, List.mem_cons_self _ _, hx.symm, ?_⟩
            rw [frameworkFired, h2.2, Bool.or_true]
        · rw [if_neg h2] at hacc
          exact Or.inl hacc
    · exact Or.inr ⟨G, List.mem_cons_of_mem _ hG, hGx, hGf⟩

lemma detectFrameworksAux_nodup {children : List FSEntry} :
    ∀ {l : List FrameworkEntry} {acc : List String}, acc.Nodup →
      (∀ F ∈ l, F.name ∉ acc) → (l.map FrameworkEntry.name).Nodup →
      (detectFrameworksAux children l acc).Nodup := by
  intro l
  induction l with
  | nil => intro acc h _ _; exact h
  | cons F rest ih =>
    intro acc hacc hdisj hnames
    rw [List.map_cons, List.nodup_cons] at hnames
    have hFacc : F.name ∉ acc := hdisj F (List.mem_cons_self _ _)
    have hgrow : ∀ G ∈ rest, G.name ∉ acc ++ [F.name] := by
      intro G hG hGm
      rcases List.mem_append.mp hGm with hGa | hGf
      · exact hdisj G (List.mem_cons_of_mem _ hG) hGa
      · rw [List.mem_singleton] at hGf
        refine hnames.1 ?_
        rw [← hGf]
        exact List.mem_map_of_mem _ hG
    have hnodup1 : (acc ++ [F.name]).Nodup :=
      List.Nodup.append hacc (List.nodup_singleton _)
        (List.disjoint_singleton.mpr hFacc)
    simp only [detectFrameworksAux]
    by_cases h1 : markerLoop children F.content_check F.files = true
    · rw [if_pos h1]
      have hguard : ¬(F.name ∉ acc ++ [F.name] ∧
          contentOnlyFired children F.content_check = true) := by
        intro hg
        exact hg.1 (List.mem_append_right _ (List.mem_singleton_self _))
      rw [if_neg hguard]
      exact ih hnodup1 hgrow hnames.2
    · rw [if_neg h1]
      by_cases h2 : F.name ∉ acc ∧ contentOnlyFired children F.content_check = true
      · rw [if_pos h2]
        exact ih hnodup1 hgrow hnames.2
      · rw [if_neg h2]
        exact ih hacc (fun G hG => hdisj G (List.mem_cons_of_mem _ hG)) hnames.2

lemma detect_frameworks_nodup (children : List FSEntry) :
    (detect_frameworks children).Nodup := by
  rw [detect_frameworks]
  exact detectFrameworksAux_nodup List.nodup_nil (by simp) (by decide)

lemma foldl_addIfAbsent_nodup : ∀ (fws ls : List String), ls.Nodup →
    (fws.foldl (fun ls fw => if fw ∈ ls then ls else ls ++ [fw]) ls).Nodup := by
  intro fws
  induction fws with
  | nil => intro ls h; exact h
  | cons fw rest ih =>
    intro ls h
    rw [List.foldl_cons]
    by_cases hm : fw ∈ ls
    · rw [if_pos hm]; exact ih ls h
    · rw [if_neg hm]
      exact ih _ (List.Nodup.append h (List.nodup_singleton fw)
        (List.disjoint_singleton.mpr hm))

lemma create_project_languages_nodup (sp : PyPath) (children : List FSEntry) :
    (_create_project sp children).languages.Nodup :=
  foldl_addIfAbsent_nodup (detect_frameworks children) (detect_languages children)
    (detect_languages_nodup children)

/-! ## Where scan records come from -/

lemma mem_scan_directory {s : ProjectScanner} {sp : PyPath}
    {root : Option (List FSEntry)} {p : Project}
    (h : p ∈ s.scan_directory sp root) :
    ∃ n sub, FSEntry.dir n sub ∈ root.getD [] ∧ _should_skip n = false ∧
      p = _create_project (sp.push n) sub := by
  match root with
  | none => cases h
  | some children =>
    rw [ProjectScanner.scan_directory] at h
    rcases List.mem_filterMap.mp h with ⟨item, hitem, hf⟩
    cases item with
    | file n c => exact absurd hf (by simp)
    | dir n sub =>
      dsimp only at hf
      by_cases hs : _should_skip n = true
      · rw [if_pos hs] at hf
        exact absurd hf (by simp)
      · rw [if_neg hs] at hf
        exact ⟨n, sub, hitem, Bool.eq_false_iff.mpr hs,
          (Option.some.inj hf).symm⟩

lemma mem_scanRecursiveFuel :
    ∀ {f : Nat} {sp : PyPath} {ch : List FSEntry} {p : Project},
      p ∈ scanRecursiveFuel sp ch f → ∃ sp' ch', p = _create_project sp' ch' := by
  intro f
  induction f with
  | zero =>
    intro sp ch p h
    rw [scanRecursiveFuel] at h
    cases h
  | succ f ih =>
    intro sp ch p h
    rw [scanRecursiveFuel] at h
    by_cases hp : _is_project ch = true
    · rw [if_pos hp, List.mem_singleton] at h
      exact ⟨sp, ch, h⟩
    · rw [if_neg hp] at h
      rcases (mem_foldr_append _ _ _).mp h with ⟨item, hitem, hpi⟩
      cases item with
      | file n c => cases hpi
      | dir n sub =>
        dsimp only at hpi
        by_cases hs : _should_skip n = true
        · rw [if_pos hs] at hpi
          cases hpi
        · rw [if_neg hs] at hpi
          exact ih hpi

/-! ## The orchestrator's dedup loop -/

lemma addProjects_fst : ∀ (ps : List Project) (seen : List PyPath)
    (acc : List Project), (addProjects ps seen acc).1 = dedupSeen ps seen := by
  intro ps
  induction ps with
  | nil => intro seen acc; rfl
  | cons p ps ih =>
    intro seen acc
    rw [addProjects, dedupSeen]
    by_cases h : p.path ∈ seen
    · rw [if_pos h, if_pos h]; exact ih _ _
    · rw [if_neg h, if_neg h]; exact ih _ _

lemma addProjects_snd : ∀ (ps : List Project) (seen : List PyPath)
    (acc : List Project),
    (addProjects ps seen acc).2 = acc ++ dedupFirstAux ps seen := by
  intro ps
  induction ps with
  | nil => intro seen acc; simp [addProjects, dedupFirstAux]
  | cons p ps ih =>
    intro seen acc
    rw [addProjects, dedupFirstAux]
    by_cases h : p.path ∈ seen
    · rw [if_pos h, if_pos h]; exact ih _ _
    · rw [if_neg h, if_neg h, ih, List.append_assoc]
      rfl

lemma dedupSeen_append : ∀ (xs ys : List Project) (seen : List PyPath),
    dedupSeen (xs ++ ys) seen = dedupSeen ys (dedupSeen xs seen) := by
  intro xs
  induction xs with
  | nil => intro ys seen; rfl
  | cons p xs ih =>
    intro ys seen
    rw [List.cons_append, dedupSeen, dedupSeen]
    by_cases h : p.path ∈ seen
    · rw [if_pos h, if_pos h]; exact ih _ _
    · rw [if_neg h, if_neg h]; exact ih _ _

lemma dedupFirstAux_append : ∀ (xs ys : List Project) (seen : List PyPath),
    dedupFirstAux (xs ++ ys) seen =
      dedupFirstAux xs seen ++ dedupFirstAux ys (dedupSeen xs seen) := by
  intro xs
  induction xs with
  | nil => intro ys seen; rfl
  | cons p xs ih =>
    intro ys seen
    rw [List.cons_append, dedupFirstAux, dedupFirstAux, dedupSeen]
    by_cases h : p.path ∈ seen
    · rw [if_pos h, if_pos h, if_pos h]; exact ih _ _
    · rw [if_neg h, if_neg h, if_neg h, ih, List.cons_append]

lemma scanDirectoriesGo_eq (scanner : ProjectScanner) :
    ∀ (roots : List ScanRoot) (seen : List PyPath) (acc : List Project),
      scanDirectoriesGo scanner roots seen acc =
        acc ++ dedupFirstAux
          (roots.flatMap fun r => scanner.scan_directory r.spelling r.tree) seen := by
  intro roots
  induction roots with
  | nil => intro seen acc; simp [scanDirectoriesGo, dedupFirstAux]
  | cons r rest ih =>
    intro seen acc
    rw [scanDirectoriesGo]
    show scanDirectoriesGo scanner rest
        (addProjects (scanner.scan_directory r.spelling r.tree) seen acc).1
        (addProjects (scanner.scan_directory r.spelling r.tree) seen acc).2 = _
    rw [ih, addProjects_fst, addProjects_snd, List.flatMap_cons,
      dedupFirstAux_append, List.append_assoc]

lemma dedupFirstAux_paths : ∀ (ps : List Project) (seen : List PyPath),
    ((dedupFirstAux ps seen).map Project.path).Nodup ∧
      ∀ p ∈ dedupFirstAux ps seen, p.path ∉ seen := by
  intro ps
  induction ps with
  | nil => intro seen; exact ⟨List.nodup_nil, by simp [dedupFirstAux]⟩
  | cons p ps ih =>
    intro seen
    rw [dedupFirstAux]
    by_cases h : p.path ∈ seen
    · rw [if_pos h]; exact ih seen
    · rw [if_neg h]
      rcases ih (p.path :: seen) with ⟨hnd, hmem⟩
      constructor
      · rw [List.map_cons, List.nodup_cons]
        refine ⟨?_, hnd⟩
        intro hm
        rcases List.mem_map.mp hm with ⟨q, hq, hqp⟩
        exact hmem q hq (by rw [hqp]; exact List.mem_cons_self _ _)
      · intro q hq
        rcases List.mem_cons.mp hq with rfl | hq'
        · exact h
        · intro hqs
          exact hmem q hq' (List.mem_cons_of_mem _ hqs)

lemma mem_dedupFirstAux : ∀ {ps : List Project} {seen : List PyPath}
    {p : Project}, p ∈ dedupFirstAux ps seen → p ∈ ps := by
  intro ps
  induction ps with
  | nil => intro seen p h; cases h
  | cons q ps ih =>
    intro seen p h
    rw [dedupFirstAux] at h
    by_cases hq : q.path ∈ seen
    · rw [if_pos hq] at h
      exact List.mem_cons_of_mem _ (ih h)
    · rw [if_neg hq] at h
      rcases List.mem_cons.mp h with rfl | h'
      · exact List.mem_cons_self _ _
      · exact List.mem_cons_of_mem _ (ih h')

/-! ## Scanning a marker chain (for the depth bound) -/

/-- Scanning a `projectChain` finds the single marked directory at the
bottom exactly when the fuel reaches it: the marker directory sits
`ns.length` levels down and is processed with fuel `f - ns.length`. -/
lemma projectChain_scan : ∀ (ns : List String) (sp : PyPath) (f : Nat),
    (∀ n ∈ ns, chainSafe n) →
    scanRecursiveFuel sp (projectChain ns) f =
      if ns.length + 1 ≤ f then
        [_create_project (sp.extend ns) (projectChain [])]
      else [] := by
  intro ns
  induction ns with
  | nil =>
    intro sp f _
    cases f with
    | zero => rw [scanRecursiveFuel, if_neg (Nat.not_succ_le_zero _)]
    | succ f =>
      rw [scanRecursiveFuel, if_pos (by decide),
        if_pos (by simp only [List.length_nil]; omega)]
      simp [PyPath.extend]
  | cons n rest ih =>
    intro sp f h
    have hn : chainSafe n := h n (List.mem_cons_self _ _)
    cases f with
    | zero => rw [scanRecursiveFuel, if_neg (Nat.not_succ_le_zero _)]
    | succ f =>
      obtain ⟨hskip, hnm, hsln, hcs⟩ := hn
      have hproj : ¬(_is_project (projectChain (n :: rest)) = true) := by
        have e1 : String.mk (("*.sln" : String).toList.drop 1) = ".sln" := rfl
        have e2 : String.mk (("*.csproj" : String).toList.drop 1) = ".csproj" := rfl
        rw [Bool.not_eq_true, projectChain, _is_project, Bool.or_eq_false_iff]
        constructor
        · rw [List.any_eq_false]
          intro m hm
          rw [Bool.not_eq_true]
          simp only [entryExists, List.any_cons, List.any_nil, FSEntry.name,
            Bool.or_false]
          rw [beq_eq_false_iff_ne]
          exact fun hEq => hnm (hEq ▸ hm)
        · simp only [PROJECT_FILE_PATTERNS, List.any_cons, List.any_nil,
            globStarMatch, FSEntry.name, Bool.or_false, e1, e2, hsln, hcs]
      rw [scanRecursiveFuel, if_neg hproj]
      show (if _should_skip n then []
          else scanRecursiveFuel (sp.push n) (projectChain rest) f) ++ [] = _
      rw [if_neg (by rw [hskip]; exact Bool.false_ne_true), List.append_nil,
        ih _ _ (fun m hm => h m (List.mem_cons_of_mem _ hm))]
      by_cases hle : rest.length + 1 ≤ f
      · rw [if_pos hle, if_pos (by simp only [List.length_cons]; omega)]
        have hpath : (sp.push n).extend rest = sp.extend (n :: rest) := by
          simp [PyPath.push, PyPath.extend]
        rw [hpath]
      · rw [if_neg hle, if_neg (by simp only [List.length_cons]; omega)]

/-! ## Claims -/

/-- C3: for every directory, `detect_languages` returns the detected
languages sorted ascending by integer priority, with ties broken by the
declaration order of the language table (a stable sort); in particular a
directory with both a `pyproject.toml` (Python, priority 1) and a
`package.json` (JavaScript, priority 2) yields exactly
`["Python", "JavaScript"]`. -/
theorem detect_languages_sorted_by_priority :
    (∀ children : List FSEntry,
      (detect_languages children).Pairwise fun a b =>
        langPriority a < langPriority b ∨
          (langPriority a = langPriority b ∧ langIdx a < langIdx b))
    ∧ detect_languages pyJsChildren = ["Python", "JavaScript"] := by
  constructor
  · intro children
    have hp : (List.insertionSort priorityLE
        (detectedPairs children)).Pairwise lexLT :=
      pairwise_lexLT_insertionSort _ (detectedPairs_pairwise_idx children)
    rw [detect_languages, List.pairwise_map]
    refine hp.imp_of_mem ?_
    intro a b ha hb hab
    have ha2 : a.2 = langPriority a.1 :=
      snd_eq_langPriority ((List.mem_insertionSort _).mp ha)
    have hb2 : b.2 = langPriority b.1 :=
      snd_eq_langPriority ((List.mem_insertionSort _).mp hb)
    rcases hab with hlt | ⟨heq, hidx⟩
    · left; rw [← ha2, ← hb2]; exact hlt
    · right; exact ⟨by rw [← ha2, ← hb2]; exact heq, hidx⟩
  · decide

/-- C4: for every language of the table, the extension fallback decides
detection exactly when no marker file of that language exists directly
under the directory (and only a nonempty extension list can fire); the
fallback's traversal skips hidden and denylisted directories, so a
directory with a loose `.rs` file at depth 1 yields `["Rust"]` while the
same file only under `target/` yields `[]`. -/
theorem extension_fallback_only_without_marker :
    (∀ L ∈ LANGUAGE_MARKERS, ∀ children : List FSEntry,
      (∀ f ∈ L.files, entryExists children f = false) →
      (L.name ∈ detect_languages children ↔
        (L.extensions ≠ [] ∧ _has_files_with_extensions children L.extensions = true)))
    ∧ detect_languages rustLooseFile = ["Rust"]
    ∧ detect_languages rustUnderTarget = [] := by
  refine ⟨?_, by decide, by decide⟩
  intro L hL children hmark
  rw [mem_detect_languages hL, langDetected]
  have h1 : L.files.any (entryExists children) = false := by
    rw [List.any_eq_false]
    intro f hf
    simp [hmark f hf]
  rw [h1, Bool.false_or, Bool.and_eq_true]
  constructor
  · rintro ⟨he, hs⟩
    refine ⟨?_, hs⟩
    intro hnil
    rw [hnil] at he
    simp at he
  · rintro ⟨he, hs⟩
    refine ⟨?_, hs⟩
    have hie : L.extensions.isEmpty = false := by
      cases hext : L.extensions with
      | nil => exact absurd hext he
      | cons x xs => rfl
    rw [hie]; rfl

/-- C5: the framework identifier `.NET` never appears in the output of
`detect_frameworks`: its table row has no marker files and no content
check, and its `extensions` key is never consulted, so no directory
contents can confirm it. -/
theorem dotnet_never_detected (children : List FSEntry) :
    ".NET" ∉ detect_frameworks children := by
  intro h
  rcases mem_detectFrameworksAux h with h0 | ⟨F, hF, hname, hfired⟩
  · cases h0
  · fin_cases hF <;>
      first
        | exact absurd hname (by decide)
        | simp [frameworkFired, markerLoop, contentOnlyFired] at hfired

/-- C2: in shallow mode, every direct child directory of the scan root that
is not skip-listed yields a record — with no project-root-marker check —
and every record comes from such a child, so files and skip-listed
directories yield nothing. -/
theorem shallow_mode_emits_children_unconditionally :
    (∀ (s : ProjectScanner) (sp : PyPath) (children : List FSEntry)
        (n : String) (sub : List FSEntry),
      FSEntry.dir n sub ∈ children → _should_skip n = false →
      _create_project (sp.push n) sub ∈ s.scan_directory sp (some children))
    ∧ (∀ (s : ProjectScanner) (sp : PyPath) (children : List FSEntry)
        (p : Project), p ∈ s.scan_directory sp (some children) →
      ∃ n sub, FSEntry.dir n sub ∈ children ∧ _should_skip n = false ∧
        p = _create_project (sp.push n) sub) := by
  constructor
  · intro s sp children n sub hmem hskip
    rw [ProjectScanner.scan_directory]
    refine List.mem_filterMap.mpr ⟨FSEntry.dir n sub, hmem, ?_⟩
    dsimp only
    rw [if_neg (by rw [hskip]; exact Bool.false_ne_true)]
  · intro s sp children p hp
    exact mem_scan_directory hp

/-- Witness for C2: the child `app` of `demoChildren` is emitted. -/
theorem shallow_mode_emits_children_witness :
    _create_project (PyPath.push ⟨true, ["ws"]⟩ "app") [] ∈
      (ProjectScanner.mk 5).scan_directory ⟨true, ["ws"]⟩ (some demoChildren) :=
  shallow_mode_emits_children_unconditionally.1 (ProjectScanner.mk 5)
    ⟨true, ["ws"]⟩ demoChildren "app" [] (by simp [demoChildren]) (by decide)

/-- C1 (amended): `scan_directories` deduplicates by the literal
(pathlib-normalised) `Path` value of each record, first record wins, so
output paths are duplicate-free — but no canonicalisation happens. -/
theorem scan_directories_dedups_by_literal_path
    (roots : List ScanRoot) (max_depth : Nat) :
    scan_directories roots max_depth =
      dedupFirstByPath (roots.flatMap fun r =>
        (ProjectScanner.mk max_depth).scan_directory r.spelling r.tree)
    ∧ ((scan_directories roots max_depth).map Project.path).Nodup := by
  constructor
  · rw [scan_directories, scanDirectoriesGo_eq, List.nil_append, dedupFirstByPath]
  · rw [scan_directories, scanDirectoriesGo_eq, List.nil_append]
    exact (dedupFirstAux_paths _ _).1

/-- C1 counterexample: two configured roots that are the same directory —
equal canonical path, equal contents — reached by a relative and an
absolute spelling produce two records for its single project child, where
the claim (dedup by resolved/canonical `rootPath`) demands exactly one:
the dedup key is the literal `Path` value, which never gets resolved. -/
theorem scan_directories_not_canonical_dedup_cex :
    overlappingRootRel.canonical = overlappingRootAbs.canonical ∧
    overlappingRootRel.spelling ≠ overlappingRootAbs.spelling ∧
    overlappingRootRel.tree = overlappingRootAbs.tree ∧
    (scan_directories [overlappingRootRel, overlappingRootAbs]).length = 2 :=
  ⟨rfl, by decide, rfl, rfl⟩

/-- C6: in recursive mode, a directory satisfying the project-root
predicate at a reachable depth yields exactly its own record and its
subdirectories are never scanned; in particular a root with `.git` and a
nested marker-bearing directory yields one record, and the inner marker —
itself enough to make a project root — is never surfaced. -/
theorem recursive_mode_does_not_descend_into_projects :
    (∀ (s : ProjectScanner) (sp : PyPath) (children : List FSEntry)
        (depth : Nat), depth ≤ s.max_depth → _is_project children = true →
      s._scan_recursive sp children depth = [_create_project sp children])
    ∧ _is_project [FSEntry.file "Cargo.toml" (some "")] = true
    ∧ scanRecursiveFromRoot 5 ⟨true, ["code"]⟩ nestedMarkers =
        [_create_project ⟨true, ["code"]⟩ nestedMarkers] := by
  refine ⟨?_, by decide, by decide⟩
  intro s sp children depth hd hproj
  rw [ProjectScanner._scan_recursive]
  have hf : s.max_depth + 1 - depth = (s.max_depth - depth) + 1 := by omega
  rw [hf, scanRecursiveFuel, if_pos hproj]

/-- Witness for C6: the nested example, through the general statement. -/
theorem recursive_mode_does_not_descend_witness :
    (ProjectScanner.mk 5)._scan_recursive ⟨true, ["code"]⟩ nestedMarkers 1 =
      [_create_project ⟨true, ["code"]⟩ nestedMarkers] :=
  recursive_mode_does_not_descend_into_projects.1 (ProjectScanner.mk 5)
    ⟨true, ["code"]⟩ nestedMarkers 1 (by decide) (by decide)

/-- C7: recursion yields nothing once `depth` exceeds `max_depth`; entering
recursive mode at the root (depth 1, see `scanRecursiveFromRoot`) with the
default `max_depth = 5`, a marker file at depth `max_depth + 1` below the
root (a chain of 5 safe directories) is never discovered, while one at
exactly `max_depth` (a chain of 4) is. -/
theorem recursion_depth_bound :
    (∀ (s : ProjectScanner) (sp : PyPath) (children : List FSEntry)
        (depth : Nat), s.max_depth < depth →
      s._scan_recursive sp children depth = [])
    ∧ (∀ (sp : PyPath) (ns : List String), (∀ n ∈ ns, chainSafe n) →
        ns.length = 5 → scanRecursiveFromRoot 5 sp (projectChain ns) = [])
    ∧ (∀ (sp : PyPath) (ns : List String), (∀ n ∈ ns, chainSafe n) →
        ns.length = 4 → scanRecursiveFromRoot 5 sp (projectChain ns) =
          [_create_project (sp.extend ns) (projectChain [])]) := by
  refine ⟨?_, ?_, ?_⟩
  · intro s sp children depth hd
    rw [ProjectScanner._scan_recursive]
    have h0 : s.max_depth + 1 - depth = 0 := by omega
    rw [h0, scanRecursiveFuel]
  · intro sp ns h hlen
    rw [scanRecursiveFromRoot, ProjectScanner._scan_recursive,
      projectChain_scan ns sp _ h, if_neg (by rw [hlen]; decide)]
  · intro sp ns h hlen
    rw [scanRecursiveFromRoot, ProjectScanner._scan_recursive,
      projectChain_scan ns sp _ h, if_pos (by rw [hlen]; decide)]

/-- Witness for C7: concrete chains of length 5 and 4. -/
theorem recursion_depth_bound_witness :
    scanRecursiveFromRoot 5 ⟨true, ["root"]⟩
        (projectChain ["a", "b", "c", "d", "e"]) = []
    ∧ scanRecursiveFromRoot 5 ⟨true, ["root"]⟩
        (projectChain ["a", "b", "c", "d"]) =
      [_create_project (PyPath.extend ⟨true, ["root"]⟩ ["a", "b", "c", "d"])
        (projectChain [])] :=
  ⟨recursion_depth_bound.2.1 ⟨true, ["root"]⟩ ["a", "b", "c", "d", "e"]
      (by decide) rfl,
   recursion_depth_bound.2.2 ⟨true, ["root"]⟩ ["a", "b", "c", "d"]
      (by decide) rfl⟩

/-- C8: `detect_frameworks` lists each framework at most once, and every
record emitted by the orchestrator or by recursive mode has a
duplicate-free `languages` sequence (frameworks are appended only when the
exact name is absent). -/
theorem languages_never_duplicated :
    (∀ children : List FSEntry, (detect_frameworks children).Nodup)
    ∧ (∀ (roots : List ScanRoot) (max_depth : Nat) (p : Project),
        p ∈ scan_directories roots max_depth → p.languages.Nodup)
    ∧ (∀ (s : ProjectScanner) (sp : PyPath) (children : List FSEntry)
        (depth : Nat) (p : Project),
        p ∈ s._scan_recursive sp children depth → p.languages.Nodup) := by
  refine ⟨detect_frameworks_nodup, ?_, ?_⟩
  · intro roots maxD p hp
    rw [scan_directories, scanDirectoriesGo_eq, List.nil_append] at hp
    rcases List.mem_flatMap.mp (mem_dedupFirstAux hp) with ⟨r, hr, hpr⟩
    rcases mem_scan_directory hpr with ⟨n, sub, _, _, rfl⟩
    exact create_project_languages_nodup _ _
  · intro s sp children depth p hp
    rw [ProjectScanner._scan_recursive] at hp
    rcases mem_scanRecursiveFuel hp with ⟨sp', ch', rfl⟩
    exact create_project_languages_nodup _ _

/-- Witness for C8: the record for `ws/app` is emitted and its language
list is duplicate-free. -/
theorem languages_never_duplicated_witness :
    _create_project (PyPath.push ⟨true, ["ws"]⟩ "app") [] ∈
        scan_directories [demoScanRoot] 5
    ∧ (_create_project (PyPath.push ⟨true, ["ws"]⟩ "app") []).languages.Nodup :=
  ⟨by decide, languages_never_duplicated.2.1 [demoScanRoot] 5 _ (by decide)⟩

/-- C9: a content check over an unreadable or non-UTF8 file yields "no
match" (`_file_contains_keywords` returns `false` instead of raising), and
a directory whose every content-check target is unreadable produces an
empty, error-free `detect_frameworks` result. -/
theorem content_check_failures_are_no_match :
    (∀ (children : List FSEntry) (fname : String) (keywords : List String),
      lookupEntry children fname = some (FSEntry.file fname none) →
      _file_contains_keywords children fname keywords = false)
    ∧ detect_frameworks unreadableManifests = [] := by
  constructor
  · intro children fname keywords h
    rw [_file_contains_keywords, h]
  · rfl

/-- Witness for C9: the unreadable `requirements.txt` never matches. -/
theorem content_check_failures_witness :
    _file_contains_keywords unreadableManifests "requirements.txt" ["flask"]
      = false :=
  content_check_failures_are_no_match.1 unreadableManifests
    "requirements.txt" ["flask"] rfl

/-- C10: scanning is a pure function of the scanner's configuration and the
directory tree: a `scan_directory` call leaves the scanner object unchanged
(no attribute of `self` is ever assigned), so running it twice on the same
unchanged tree returns the identical, order-stable record list. -/
theorem scan_twice_is_identical :
    ∀ (s : ProjectScanner) (root_path : PyPath) (root : Option (List FSEntry)),
      ((s.scan_directory_call root_path root).2.scan_directory_call
          root_path root).1 = (s.scan_directory_call root_path root).1
      ∧ (s.scan_directory_call root_path root).2 = s :=
  fun _ _ _ => ⟨rfl, rfl⟩

/-- Witness for C4: for Rust, with no `Cargo.toml` present, detection is
exactly the extension search. -/
theorem extension_fallback_witness :
    "Rust" ∈ detect_languages rustLooseFile ↔
      (rustRow.extensions ≠ [] ∧
        _has_files_with_extensions rustLooseFile rustRow.extensions = true) :=
  extension_fallback_only_without_marker.1 rustRow (by decide) rustLooseFile
    (by decide)
